import Mathlib

/-!
Verification of the strain-gauge (load cell) driver.

The driver source (src/strain_gauge.c) is embedded shallowly:

* C `float` arithmetic is modelled by exact rational arithmetic (`ℚ`);
  the total-division convention of `ℚ` renders a C division with zero
  divisor (which yields NaN/Inf for `float`) as `0`.
* The module-level mutable state (the `StrainGauge sg` instance, the
  `taring`/`calibrating` flags and the `slope`/`intercept` calibration
  factors) is bundled into an explicit `DriverState` threaded through the
  functions that read it.
* The ADC (`adc_read_voltage`) is an external collaborator; each call to
  `read_kgs` is parametrised by the voltage sample it would return.
* C arrays are `List ℚ`; an out-of-bounds access (undefined behaviour in
  the C source) makes the embedded loop return `none`.
* `uint8_t` quantities are natural numbers reduced `% 256` exactly where
  the C code truncates them.
-/

/-- Load cell specification, from the `StrainGauge` struct of
strain_gauge.h: capacity in kg (`uint16_t`), excitation voltage `VE`,
rated output `RO`, tare `offset`. -/
structure StrainGauge where
  capacity : ℕ
  VE : ℚ
  RO : ℚ
  offset : ℚ
deriving Repr, DecidableEq

/-- The module-level mutable state of strain_gauge.c: the `sg` instance,
the `taring` and `calibrating` flags, and the static `slope` and
`intercept` calibration factors (both initialised to 0 in the source). -/
structure DriverState where
  sg : StrainGauge
  taring : Bool
  calibrating : Bool
  slope : ℚ
  intercept : ℚ
deriving Repr, DecidableEq

/-- The raw voltage-to-kilograms conversion on line 63 of
strain_gauge.c: `kilograms = sense_voltage*(sg.capacity/(sg.VE*sg.RO))`.
This is the `ReadRawKilograms` conversion of the driver documentation. -/
def read_raw_kgs (sg : StrainGauge) (sense_voltage : ℚ) : ℚ :=
  sense_voltage * ((sg.capacity : ℚ) / (sg.VE * sg.RO))

/-- Embedding of `read_kgs` (strain_gauge.c lines 58-87), parametrised by
the voltage sample the ADC returns for this call.  If `calibrating` the
raw value is returned; otherwise the line of best fit is applied with a
sign branch, then (unless `taring`) the offset branch runs: subtract the
offset when it is positive, add the (signed) offset otherwise. -/
def read_kgs (st : DriverState) (sense_voltage : ℚ) : ℚ :=
  let kilograms := read_raw_kgs st.sg sense_voltage
  if st.calibrating then kilograms
  else
    let corrected :=
      if kilograms > 0 then st.slope * kilograms + st.intercept
      else st.slope * kilograms - st.intercept
    if st.taring then corrected
    else if st.sg.offset > 0 then corrected - st.sg.offset
    else corrected + st.sg.offset

/-- Embedding of `read_average` (strain_gauge.c lines 111-127): sums
`times` fresh `read_kgs` readings (sample `i` of the run is `samples i`)
and returns `sum/times` — with no guard against `times = 0`, in which
case the C code computes `0.0f/0` (NaN); here the total division of `ℚ`
returns 0. -/
def read_average (st : DriverState) (samples : ℕ → ℚ) (times : ℕ) : ℚ :=
  (∑ i ∈ Finset.range times, read_kgs st (samples i)) / (times : ℚ)

/-- Embedding of `strain_gauge_init` (strain_gauge.c lines 44-49): stores
the three arguments unvalidated and zeroes the tare offset. -/
def strain_gauge_init (ve : ℚ) (capacity : ℕ) (ro : ℚ) : StrainGauge :=
  { capacity := capacity, VE := ve, RO := ro, offset := 0 }

/-- Embedding of `strain_gauge_set_equation` (strain_gauge.c lines
235-238): overwrites the two calibration factors. -/
def strain_gauge_set_equation (st : DriverState) (m b : ℚ) : DriverState :=
  { st with slope := m, intercept := b }

/-- The four running sums of the fit loop. -/
structure FitSums where
  sumX : ℚ
  sumX2 : ℚ
  sumY : ℚ
  sumXY : ℚ
deriving Repr, DecidableEq

/-- The summation loop of `strain_gauge_calculate_equation`
(strain_gauge.c lines 210-215): iterations `i = 0 .. n-1` accumulate
`sumX += x[i]; sumX2 += x[i]*x[i]; sumY += y[i]; sumXY += x[i]*y[i]`.
An out-of-bounds index (undefined behaviour in C) yields `none`. -/
def sumLoop (x y : List ℚ) : ℕ → Option FitSums
  | 0 => some ⟨0, 0, 0, 0⟩
  | n + 1 =>
    match sumLoop x y n, x.get? n, y.get? n with
    | some s, some xi, some yi =>
        some ⟨s.sumX + xi, s.sumX2 + xi * xi, s.sumY + yi, s.sumXY + xi * yi⟩
    | _, _, _ => none

/-- Embedding of `strain_gauge_calculate_equation` (strain_gauge.c lines
205-224).  The `uint8_t` point count is `n = weight_cnt + 1` (truncated
mod 256); the loop sums indices `0 .. n-1`; then
`m = (n*sumXY - sumX*sumY) / (n*sumX2 - sumX*sumX)` and
`b = (sumY - m*sumX) / n`, and `(equation[0], equation[1]) = (m, b)` is
returned.  `none` models an out-of-bounds array access. -/
def strain_gauge_calculate_equation (weight_cnt : ℕ) (x y : List ℚ) :
    Option (ℚ × ℚ) :=
  let n : ℕ := (weight_cnt + 1) % 256
  match sumLoop x y n with
  | none => none
  | some s =>
    let m := ((n : ℚ) * s.sumXY - s.sumX * s.sumY) /
             ((n : ℚ) * s.sumX2 - s.sumX * s.sumX)
    let b := (s.sumY - m * s.sumX) / (n : ℚ)
    some (m, b)

/-- The copy loop of `strain_gauge_calibrate` (strain_gauge.c lines
167-169): `for(i = 0; i <= weight_cnt; i++) y[i+1] = known_weights[i]`,
run here for `iter` iterations (the source runs `weight_cnt + 1` of
them, `i = 0 .. weight_cnt`).  Iteration `i` reads `known_weights[i]`
and writes `y[i+1]`; an out-of-bounds read or write yields `none`. -/
def copy_loop (known_weights : List ℚ) (y : List ℚ) : ℕ → Option (List ℚ)
  | 0 => some y
  | k + 1 =>
    match copy_loop known_weights y k, known_weights.get? k with
    | some yk, some w =>
        if k + 1 < yk.length then some (yk.set (k + 1) w) else none
    | _, _ => none

/-- Embedding of `strain_gauge_calibrate` (strain_gauge.c lines 157-192):
sets `calibrating` (and never clears it), allocates `x` and `y` of
`weight_cnt + 1` slots (the uninitialised VLA slots are modelled as 0;
`y[0] = 0` is the only slot the source initialises), runs the copy loop
for `i = 0 .. weight_cnt`, fills `x[i]` with a 20-sample average taken
while calibrating (stage `i`'s samples are `samples i`), and calls
`strain_gauge_calculate_equation` with count `weight_cnt + 1` (as a
`uint8_t`, hence mod 256).  The returned pair is the post-state and the
contents of `equation`; `none` models the undefined behaviour of an
out-of-bounds access. -/
def strain_gauge_calibrate (st : DriverState) (weight_cnt : ℕ)
    (known_weights : List ℚ) (samples : ℕ → ℕ → ℚ) :
    DriverState × Option (ℚ × ℚ) :=
  let st1 := { st with calibrating := true }
  let y0 : List ℚ := List.replicate (weight_cnt + 1) 0
  let x : List ℚ :=
    (List.range (weight_cnt + 1)).map (fun i => read_average st1 (samples i) 20)
  match copy_loop known_weights y0 (weight_cnt + 1) with
  | none => (st1, none)
  | some y => (st1, strain_gauge_calculate_equation ((weight_cnt + 1) % 256) x y)

/-- The ordinary-least-squares sums over the first `n` entries, index
form: `sumX` of the fit documentation. -/
def olsSumX (n : ℕ) (x : List ℚ) : ℚ := ∑ i ∈ Finset.range n, x.getD i 0

/-- OLS `sumX2` over the first `n` entries. -/
def olsSumX2 (n : ℕ) (x : List ℚ) : ℚ :=
  ∑ i ∈ Finset.range n, x.getD i 0 * x.getD i 0

/-- OLS `sumY` over the first `n` entries. -/
def olsSumY (n : ℕ) (y : List ℚ) : ℚ := ∑ i ∈ Finset.range n, y.getD i 0

/-- OLS `sumXY` over the first `n` entries. -/
def olsSumXY (n : ℕ) (x y : List ℚ) : ℚ :=
  ∑ i ∈ Finset.range n, x.getD i 0 * y.getD i 0

/-- The documented least-squares slope over `n` points:
`(n*sumXY - sumX*sumY) / (n*sumX2 - sumX*sumX)`. -/
def olsSlope (n : ℕ) (x y : List ℚ) : ℚ :=
  ((n : ℚ) * olsSumXY n x y - olsSumX n x * olsSumY n y) /
    ((n : ℚ) * olsSumX2 n x - olsSumX n x * olsSumX n x)

/-- The documented least-squares intercept over `n` points:
`(sumY - slope*sumX) / n`. -/
def olsIntercept (n : ℕ) (x y : List ℚ) : ℚ :=
  (olsSumY n y - olsSlope n x y * olsSumX n x) / (n : ℚ)

/-! ## Helper lemmas -/

lemma get?_eq_getD (x : List ℚ) (k : ℕ) (hk : k < x.length) :
    x.get? k = some (x.getD k 0) := by
  rw [List.get?_eq_get hk, List.getD_eq_getElem?_getD, List.getElem?_eq_getElem hk]
  rfl

/-- When the first `n` indices of both arrays are in bounds, the fit loop
computes exactly the four OLS sums over indices `0 .. n-1`. -/
lemma sumLoop_eq (x y : List ℚ) (n : ℕ) (hx : n ≤ x.length) (hy : n ≤ y.length) :
    sumLoop x y n = some ⟨olsSumX n x, olsSumX2 n x, olsSumY n y, olsSumXY n x y⟩ := by
  induction n with
  | zero => simp [sumLoop, olsSumX, olsSumX2, olsSumY, olsSumXY]
  | succ k ih =>
    have hkx : k ≤ x.length := Nat.le_of_succ_le hx
    have hky : k ≤ y.length := Nat.le_of_succ_le hy
    rw [sumLoop, ih hkx hky, get?_eq_getD x k (Nat.lt_of_succ_le hx),
      get?_eq_getD y k (Nat.lt_of_succ_le hy)]
    simp [olsSumX, olsSumX2, olsSumY, olsSumXY, Finset.sum_range_succ]

/-- Given count argument `c` and arrays holding at least `c + 1` entries,
`strain_gauge_calculate_equation` returns the documented OLS slope and
intercept over the `n = c + 1` points with indices `0 .. c`. -/
lemma calc_equation_spec (c : ℕ) (x y : List ℚ) (hc : c + 1 < 256)
    (hx : c + 1 ≤ x.length) (hy : c + 1 ≤ y.length) :
    strain_gauge_calculate_equation c x y
      = some (olsSlope (c + 1) x y, olsIntercept (c + 1) x y) := by
  have hs := sumLoop_eq x y (c + 1) hx hy
  unfold strain_gauge_calculate_equation
  rw [Nat.mod_eq_of_lt hc]
  simp only [hs]
  rfl

/-- Strict Cauchy-Schwarz for the fit denominator: when two of the first
`n` values differ, `n * Σ f i ^ 2 - (Σ f i) ^ 2` is strictly positive. -/
lemma variance_pos (n : ℕ) (f : ℕ → ℚ) (a b : ℕ) (ha : a < n) (hb : b < n)
    (hab : f a ≠ f b) :
    0 < (n : ℚ) * (∑ i ∈ Finset.range n, f i * f i)
        - (∑ i ∈ Finset.range n, f i) * (∑ i ∈ Finset.range n, f i) := by
  set S1 := ∑ i ∈ Finset.range n, f i with hS1
  set S2 := ∑ i ∈ Finset.range n, f i * f i with hS2
  have hn : 0 < n := lt_of_le_of_lt (Nat.zero_le a) ha
  have hnQ : (0 : ℚ) < (n : ℚ) := by exact_mod_cast hn
  have expand : ∑ i ∈ Finset.range n, ((n : ℚ) * f i - S1) * ((n : ℚ) * f i - S1)
      = (n : ℚ) * ((n : ℚ) * S2 - S1 * S1) := by
    have e : ∀ i ∈ Finset.range n, ((n : ℚ) * f i - S1) * ((n : ℚ) * f i - S1)
        = (n : ℚ) * (n : ℚ) * (f i * f i) - 2 * (n : ℚ) * S1 * f i + S1 * S1 :=
      fun i _ => by ring
    rw [Finset.sum_congr rfl e, Finset.sum_add_distrib, Finset.sum_sub_distrib,
      ← Finset.mul_sum, ← Finset.mul_sum, Finset.sum_const, Finset.card_range,
      nsmul_eq_mul, ← hS1, ← hS2]
    ring
  have nonneg : 0 ≤ ∑ i ∈ Finset.range n, ((n : ℚ) * f i - S1) * ((n : ℚ) * f i - S1) :=
    Finset.sum_nonneg fun i _ => mul_self_nonneg _
  have hge : 0 ≤ (n : ℚ) * S2 - S1 * S1 := by
    have h0 : 0 ≤ (n : ℚ) * ((n : ℚ) * S2 - S1 * S1) := expand ▸ nonneg
    exact (mul_nonneg_iff_of_pos_left hnQ).mp h0
  rcases eq_or_lt_of_le hge with heq | h
  · exfalso
    have hsum0 : ∑ i ∈ Finset.range n, ((n : ℚ) * f i - S1) * ((n : ℚ) * f i - S1) = 0 := by
      rw [expand, ← heq, mul_zero]
    have each := (Finset.sum_eq_zero_iff_of_nonneg
      (fun i _ => mul_self_nonneg ((n : ℚ) * f i - S1))).mp hsum0
    have fa : (n : ℚ) * f a = S1 := by
      have h1 := mul_self_eq_zero.mp (each a (Finset.mem_range.mpr ha))
      linarith
    have fb : (n : ℚ) * f b = S1 := by
      have h1 := mul_self_eq_zero.mp (each b (Finset.mem_range.mpr hb))
      linarith
    exact hab (mul_left_cancel₀ (ne_of_gt hnQ) (fa.trans fb.symm))
  · exact h

/-- On noiseless data `y i = 3 * x i + 2` with two distinct `x` values,
the documented OLS formulas recover the coefficients exactly. -/
lemma ols_noiseless (n : ℕ) (x y : List ℚ) (hn : 0 < n)
    (hnoise : ∀ i, i < n → y.getD i 0 = 3 * x.getD i 0 + 2)
    (a b : ℕ) (ha : a < n) (hb : b < n) (hne : x.getD a 0 ≠ x.getD b 0) :
    olsSlope n x y = 3 ∧ olsIntercept n x y = 2 := by
  have hXY : olsSumXY n x y = 3 * olsSumX2 n x + 2 * olsSumX n x := by
    unfold olsSumXY olsSumX2 olsSumX
    rw [Finset.mul_sum, Finset.mul_sum, ← Finset.sum_add_distrib]
    refine Finset.sum_congr rfl fun i hi => ?_
    rw [hnoise i (Finset.mem_range.mp hi)]; ring
  have hY : olsSumY n y = 3 * olsSumX n x + 2 * n := by
    unfold olsSumY olsSumX
    rw [Finset.mul_sum]
    have h2 : (2 : ℚ) * n = ∑ _i ∈ Finset.range n, (2 : ℚ) := by
      rw [Finset.sum_const, Finset.card_range, nsmul_eq_mul]; ring
    rw [h2, ← Finset.sum_add_distrib]
    refine Finset.sum_congr rfl fun i hi => ?_
    rw [hnoise i (Finset.mem_range.mp hi)]
  have hD : 0 < (n : ℚ) * olsSumX2 n x - olsSumX n x * olsSumX n x := by
    have h := variance_pos n (fun i => x.getD i 0) a b ha hb hne
    simpa [olsSumX, olsSumX2] using h
  have hD' : (n : ℚ) * olsSumX2 n x - olsSumX n x * olsSumX n x ≠ 0 := ne_of_gt hD
  have hn' : (n : ℚ) ≠ 0 := by
    have h : (0 : ℚ) < (n : ℚ) := by exact_mod_cast hn
    exact ne_of_gt h
  have hslope : olsSlope n x y = 3 := by
    unfold olsSlope
    rw [hXY, hY]
    have hnum : (n : ℚ) * (3 * olsSumX2 n x + 2 * olsSumX n x)
        - olsSumX n x * (3 * olsSumX n x + 2 * n)
        = 3 * ((n : ℚ) * olsSumX2 n x - olsSumX n x * olsSumX n x) := by ring
    rw [hnum, mul_div_assoc, div_self hD', mul_one]
  refine ⟨hslope, ?_⟩
  unfold olsIntercept
  rw [hY, hslope]
  have hnum : 3 * olsSumX n x + 2 * (n : ℚ) - 3 * olsSumX n x = 2 * n := by ring
  rw [hnum, mul_div_assoc, div_self hn', mul_one]

/-- When all of the first `n` entries of `x` coincide, the fit denominator
`n * sumX2 - sumX * sumX` vanishes. -/
lemma ols_constant_x (n : ℕ) (x : List ℚ)
    (hconst : ∀ i, i < n → x.getD i 0 = x.getD 0 0) :
    (n : ℚ) * olsSumX2 n x - olsSumX n x * olsSumX n x = 0 := by
  unfold olsSumX olsSumX2
  have h1 : ∑ i ∈ Finset.range n, x.getD i 0 = (n : ℚ) * x.getD 0 0 := by
    rw [Finset.sum_congr rfl fun i hi => hconst i (Finset.mem_range.mp hi),
      Finset.sum_const, Finset.card_range, nsmul_eq_mul]
  have h2 : ∑ i ∈ Finset.range n, x.getD i 0 * x.getD i 0
      = (n : ℚ) * (x.getD 0 0 * x.getD 0 0) := by
    rw [Finset.sum_congr rfl fun i hi => by rw [hconst i (Finset.mem_range.mp hi)],
      Finset.sum_const, Finset.card_range, nsmul_eq_mul]
  rw [h1, h2]; ring

/-! ## Claim theorems -/

/-- C1 (amended).  With count argument `c` and arrays holding at least
`c + 1` entries, `strain_gauge_calculate_equation` computes
`slope = (n*sumXY - sumX*sumY) / (n*sumX2 - sumX*sumX)` and
`intercept = (sumY - slope*sumX) / n` over exactly the `n = c + 1`
points with indices `0 .. c`; on noiseless points `y i = 3 * x i + 2`
with two distinct `x` values it returns slope exactly 3 and intercept
exactly 2. -/
theorem calc_equation_succ_formula (c : ℕ) (x y : List ℚ) (hc : c + 1 < 256)
    (hx : c + 1 ≤ x.length) (hy : c + 1 ≤ y.length) :
    strain_gauge_calculate_equation c x y
      = some (olsSlope (c + 1) x y, olsIntercept (c + 1) x y)
    ∧ (∀ a b, a < c + 1 → b < c + 1 → x.getD a 0 ≠ x.getD b 0 →
        (∀ i, i < c + 1 → y.getD i 0 = 3 * x.getD i 0 + 2) →
        strain_gauge_calculate_equation c x y = some ((3 : ℚ), (2 : ℚ))) := by
  refine ⟨calc_equation_spec c x y hc hx hy, ?_⟩
  intro a b ha hb hne hnoise
  rw [calc_equation_spec c x y hc hx hy]
  obtain ⟨h3, h2⟩ := ols_noiseless (c + 1) x y (Nat.succ_pos c) hnoise a b ha hb hne
  rw [h3, h2]

/-- C1 witness: the noiseless dataset `x = [0, 1]`, `y = [2, 5]`
(`y = 3x + 2`) passed with count 1 (two points) recovers `(3, 2)`. -/
theorem calc_equation_noiseless_witness :
    strain_gauge_calculate_equation 1 [0, 1] [2, 5] = some ((3 : ℚ), (2 : ℚ)) :=
  (calc_equation_succ_formula 1 [0, 1] [2, 5] (by decide) (by decide) (by decide)).2
    1 0 (by decide) (by decide) (by norm_num)
    (by intro i hi; interval_cases i <;> norm_num)

/-- C1 counterexample: called with count 2 and arrays of exactly 2
elements the fit does not compute the 2-point OLS coefficients — its
loop reads index 2, one past the end (undefined behaviour, modelled as
`none`). -/
theorem calc_equation_count_mismatch_cex :
    strain_gauge_calculate_equation 2 [1, 2] [5, 8]
      ≠ some (olsSlope 2 [1, 2] [5, 8], olsIntercept 2 [1, 2] [5, 8]) := by
  decide

/-- C2 (amended).  With the default calibration factors
`{slope = 0, intercept = 0}` a non-calibrating, non-taring read with
zero tare offset returns 0 for every voltage sample: the zero slope
annihilates the raw value, so the read does not reproduce
`read_raw_kgs`. -/
theorem default_coeffs_read_zero (sg : StrainGauge) (v : ℚ) (hoff : sg.offset = 0) :
    read_kgs ⟨sg, false, false, 0, 0⟩ v = 0 := by
  unfold read_kgs
  simp [hoff]

/-- C2 witness at `sg = {1, 1, 1, 0}` and sample 2: the default-coefficient
read returns 0. -/
theorem default_coeffs_read_zero_witness :
    read_kgs ⟨⟨1, 1, 1, 0⟩, false, false, 0, 0⟩ 2 = 0 :=
  default_coeffs_read_zero ⟨1, 1, 1, 0⟩ 2 rfl

/-- C2 counterexample: with default coefficients and zero offset the read
of sample 1 is 0 while the raw conversion of the same sample is 1. -/
theorem default_coeffs_not_identity_cex :
    read_kgs ⟨⟨1, 1, 1, 0⟩, false, false, 0, 0⟩ 1 = 0
    ∧ read_raw_kgs ⟨1, 1, 1, 0⟩ 1 = 1 ∧ (0 : ℚ) ≠ 1 := by
  norm_num [read_kgs, read_raw_kgs]

/-- C3.  `strain_gauge_calibrate` sets the `calibrating` flag on entry
and never clears it: in the state it returns the flag is still `true`,
so every subsequent `read_kgs` keeps returning the raw uncorrected
conversion instead of applying the fitted coefficients. -/
theorem calibrate_keeps_calibrating_set (st : DriverState) (weight_cnt : ℕ)
    (known_weights : List ℚ) (samples : ℕ → ℕ → ℚ) :
    ((strain_gauge_calibrate st weight_cnt known_weights samples).1).calibrating = true
    ∧ ∀ v, read_kgs (strain_gauge_calibrate st weight_cnt known_weights samples).1 v
        = read_raw_kgs st.sg v := by
  unfold strain_gauge_calibrate
  cases h : copy_loop known_weights (List.replicate (weight_cnt + 1) 0) (weight_cnt + 1) <;>
    simp [h, read_kgs]

/-- C4 (amended).  On a dataset whose `x` values all coincide the fit
denominator `n*sumX2 - sumX*sumX` is exactly 0 and the code divides by
it anyway (no `DegenerateCalibration` error exists): the slope becomes
`0/0` — NaN in C float arithmetic, 0 under the rational total-division
convention — and the returned intercept is `sumY / n`. -/
theorem calc_equation_degenerate_divides (c : ℕ) (x y : List ℚ) (hc : c + 1 < 256)
    (hx : c + 1 ≤ x.length) (hy : c + 1 ≤ y.length)
    (hconst : ∀ i, i < c + 1 → x.getD i 0 = x.getD 0 0) :
    ((c + 1 : ℕ) : ℚ) * olsSumX2 (c + 1) x - olsSumX (c + 1) x * olsSumX (c + 1) x = 0
    ∧ strain_gauge_calculate_equation c x y
        = some (0, olsSumY (c + 1) y / ((c + 1 : ℕ) : ℚ)) := by
  have hD := ols_constant_x (c + 1) x hconst
  refine ⟨hD, ?_⟩
  rw [calc_equation_spec c x y hc hx hy]
  have hm : olsSlope (c + 1) x y = 0 := by
    unfold olsSlope
    rw [hD, div_zero]
  have hb2 : olsIntercept (c + 1) x y = olsSumY (c + 1) y / ((c + 1 : ℕ) : ℚ) := by
    unfold olsIntercept
    rw [hm, zero_mul, sub_zero]
  rw [hm, hb2]

/-- C4 witness: count 1 with `x = [2, 2]` (identical) and `y = [1, 3]`
yields denominator 0 and result `(0, sumY/2)`. -/
theorem calc_equation_degenerate_witness :
    strain_gauge_calculate_equation 1 [2, 2] [1, 3]
      = some (0, olsSumY 2 [1, 3] / ((2 : ℕ) : ℚ)) :=
  (calc_equation_degenerate_divides 1 [2, 2] [1, 3] (by decide) (by decide)
    (by decide) (by intro i hi; interval_cases i <;> norm_num)).2

/-- C4 counterexample: with all-identical `x = [1, 1, 1]` (count 2) the
fit does not fail — it returns the value `(0, 2)` computed through the
zero denominator. -/
theorem calc_equation_degenerate_cex :
    strain_gauge_calculate_equation 2 [1, 1, 1] [1, 2, 3] = some (0, 2) := by
  rw [calc_equation_spec 2 [1, 1, 1] [1, 2, 3] (by omega) (by simp) (by simp)]
  norm_num [olsSlope, olsIntercept, olsSumX, olsSumX2, olsSumY, olsSumXY,
    Finset.sum_range_succ]

/-- C5 (amended).  On a single data point (count argument 0, so `n = 1`)
the fit performs no check and returns coefficients: the denominator is
0, the slope is `0/0` (NaN in C; 0 under the rational convention) and
the intercept is `y[0]`; no `InsufficientData` error exists. -/
theorem calc_equation_single_point (x y : List ℚ) (hx : 1 ≤ x.length)
    (hy : 1 ≤ y.length) :
    strain_gauge_calculate_equation 0 x y = some (0, y.getD 0 0) := by
  rw [calc_equation_spec 0 x y (by omega) hx hy]
  have hD : ((0 + 1 : ℕ) : ℚ) * olsSumX2 (0 + 1) x - olsSumX (0 + 1) x * olsSumX (0 + 1) x = 0 := by
    simp [olsSumX, olsSumX2]
  have hm : olsSlope (0 + 1) x y = 0 := by
    unfold olsSlope
    rw [hD, div_zero]
  have hb2 : olsIntercept (0 + 1) x y = y.getD 0 0 := by
    unfold olsIntercept
    rw [hm, zero_mul, sub_zero]
    simp [olsSumY]
  rw [hm, hb2]

/-- C5 witness: the single point `(4, 9)` produces `(0, 9)`. -/
theorem calc_equation_single_point_witness :
    strain_gauge_calculate_equation 0 [4] [9] = some (0, (9 : ℚ)) :=
  calc_equation_single_point [4] [9] (by decide) (by decide)

/-- C5 counterexample: the fit on the single point `(5, 7)` does not fail
with an error — it returns the coefficients `(0, 7)`. -/
theorem calc_equation_single_point_cex :
    strain_gauge_calculate_equation 0 [5] [7] = some (0, 7) := by
  rw [calc_equation_spec 0 [5] [7] (by omega) (by simp) (by simp)]
  norm_num [olsSlope, olsIntercept, olsSumX, olsSumX2, olsSumY, olsSumXY,
    Finset.sum_range_succ]

/-- C6 (amended).  `read_average` with a sample count of 0 performs no
validation: the loop body never runs and `sum/times` is computed with a
zero divisor (`0.0f/0`, NaN in C; 0 under the rational total-division
convention).  No `InvalidArgument` error exists. -/
theorem read_average_zero_count (st : DriverState) (samples : ℕ → ℚ) :
    read_average st samples 0 = 0 := by
  simp [read_average]

/-- C6 counterexample: a zero-count average returns the value 0 computed
through the zero divisor rather than failing. -/
theorem read_average_zero_count_cex :
    read_average ⟨⟨1, 1, 1, 0⟩, false, false, 0, 0⟩ (fun _ => 3) 0 = 0 := by
  simp [read_average]

/-- C7 (amended).  `strain_gauge_init` performs no validation: every
input — including zero or negative excitation voltage or rated output —
is stored verbatim with the tare offset set to 0, and with `ve = 0` the
conversion goes on to divide by `VE * RO = 0` (undefined for C floats;
0 under the rational convention). -/
theorem init_stores_unvalidated (ve : ℚ) (cap : ℕ) (ro : ℚ) (v : ℚ) :
    strain_gauge_init ve cap ro = ⟨cap, ve, ro, 0⟩
    ∧ read_raw_kgs (strain_gauge_init 0 cap ro) v = 0 := by
  constructor
  · rfl
  · simp [strain_gauge_init, read_raw_kgs]

/-- C7 counterexample: initialisation with zero excitation voltage and a
negative rated output is accepted verbatim instead of failing with
`InvalidConfiguration`. -/
theorem init_accepts_nonpositive_cex :
    strain_gauge_init 0 3 (-1) = ⟨3, 0, -1, 0⟩ := rfl

/-- C8 (amended).  In a normal (non-taring, non-calibrating) read the
offset step subtracts the offset when it is positive and adds the signed
offset itself when it is not: in both cases the result is the
line-corrected value minus `|offset|` — a negative offset is subtracted
in magnitude, not added as the absolute value. -/
theorem offset_step_subtracts_abs (sg : StrainGauge) (m b v : ℚ) :
    read_kgs ⟨sg, false, false, m, b⟩ v =
      (if read_raw_kgs sg v > 0 then m * read_raw_kgs sg v + b
       else m * read_raw_kgs sg v - b) - |sg.offset| := by
  rcases lt_or_le 0 sg.offset with ho | ho
  · rw [abs_of_pos ho]
    simp only [read_kgs, Bool.false_eq_true, if_false, if_pos ho]
  · rw [abs_of_nonpos ho]
    simp only [read_kgs, Bool.false_eq_true, if_false, if_neg (not_lt.mpr ho)]
    ring

/-- C8 counterexample: with offset `-1`, coefficients `{1, 0}` and raw
value 5 the read returns `4 = 5 + (-1)`, not `6 = 5 + |-1|` as the claim
would have it. -/
theorem offset_step_negative_offset_cex :
    read_kgs ⟨⟨1, 1, 1, -1⟩, false, false, 1, 0⟩ 5 = 4
    ∧ (4 : ℚ) ≠ 5 + |(-1 : ℚ)| := by
  norm_num [read_kgs, read_raw_kgs]

/-- C9.  After `strain_gauge_set_equation` installs `slope = 1`,
`intercept = 0`, a non-taring, non-calibrating read with zero tare
offset equals the raw conversion for every voltage sample, positive or
negative (identity correction through both sign branches). -/
theorem identity_equation_reads_raw (st : DriverState) (v : ℚ)
    (hoff : st.sg.offset = 0) (ht : st.taring = false) (hc : st.calibrating = false) :
    read_kgs (strain_gauge_set_equation st 1 0) v = read_raw_kgs st.sg v := by
  unfold read_kgs strain_gauge_set_equation
  simp [hoff, ht, hc]

/-- C9 witness at a negative sample: with `sg = {2, 1, 1, 0}` the
identity-corrected read of sample `-3` equals the raw conversion. -/
theorem identity_equation_reads_raw_witness :
    read_kgs (strain_gauge_set_equation ⟨⟨2, 1, 1, 0⟩, false, false, 5, 7⟩ 1 0) (-3)
      = read_raw_kgs (⟨2, 1, 1, 0⟩ : StrainGauge) (-3) :=
  identity_equation_reads_raw ⟨⟨2, 1, 1, 0⟩, false, false, 5, 7⟩ (-3) rfl rfl rfl

/-- C10.  The calibration loops do not stay in bounds: the copy loop for
`N = 1` known weight (a 1-element list, `y` of 2 slots) reads
`known_weights[1]` out of bounds; `strain_gauge_calculate_equation`
called with count 2 and 2-element arrays reads index 2 out of bounds;
and a full `strain_gauge_calibrate` run with `N = 1` hits the
out-of-bounds copy.  Each undefined access is modelled as `none`. -/
theorem calibration_oob_access :
    copy_loop [(1 : ℚ)/2] (List.replicate 2 0) 2 = none
    ∧ strain_gauge_calculate_equation 2 [1, 2] [3, 4] = none
    ∧ (strain_gauge_calibrate ⟨⟨1, 1, 1, 0⟩, false, false, 0, 0⟩ 1 [(1 : ℚ)/2]
        (fun _ _ => 0)).2 = none :=
  ⟨rfl, rfl, rfl⟩
